/-
Verification of the Forward-testing arbitrage repository.

Shallow embedding of the execution and detection layer:
  - RiskManager (src/execution/riskManager.ts)
  - SlippageModel and PaperTradingExecutor (src/execution/slippageModel.ts)
  - ArbitrageEngine dedupe and tracking, QuestionSimilarityMatcher
    (src/arbitrage/detectors/crossMarketDetector.ts)

JavaScript numbers are modelled by rationals.  Monetary amounts, prices,
percentages and timestamps are all plain numbers in the source, so they all
become rationals here.  JS Maps keyed by strings become association lists
with Map-faithful set and delete operations (replace first matching entry,
append new entries at the end).
-/
import Mathlib

namespace ForwardTesting

/-! ## Association lists, modelling the JS Map operations used by the code -/

/-- Lookup in an association list, like Map.get: first entry with the key. -/
def alistLookup {β : Type} : List (String × β) → String → Option β
  | [], _ => none
  | (k', v') :: rest, k => if k' = k then some v' else alistLookup rest k

/-- Map.set semantics: replace the first entry carrying the key, or append a
fresh entry at the end when the key is absent. -/
def alistSet {β : Type} : List (String × β) → String → β → List (String × β)
  | [], k, v => [(k, v)]
  | (k', v') :: rest, k, v =>
      if k' = k then (k, v) :: rest else (k', v') :: alistSet rest k v

/-- Map.delete semantics: drop the first entry carrying the key. -/
def alistDel {β : Type} : List (String × β) → String → List (String × β)
  | [], _ => []
  | (k', v') :: rest, k => if k' = k then rest else (k', v') :: alistDel rest k

/-! ## RiskManager data model (src/execution/riskManager.ts) -/

/-- RiskLimits from src/execution/types, as initialised in the constructor. -/
structure RiskLimits where
  maxPositionSizeUsd : ℚ
  maxTotalExposureUsd : ℚ
  maxDailyLossUsd : ℚ
  maxSlippagePercent : ℚ
  minLiquidityUsd : ℚ
  maxGasCostUsd : ℚ
  cooldownMs : ℚ
deriving DecidableEq

/-- Position record stored in the RiskManager positions map. -/
structure Position where
  marketId : String
  outcome : ℚ
  size : ℚ
  avgEntryPrice : ℚ
  currentPrice : ℚ
  unrealizedPnl : ℚ
  openedAt : ℚ
deriving DecidableEq

/-- Mutable fields of the RiskManager class.  dailyReset holds the timestamp
of the next scheduled daily reset (Date semantics collapsed to a rational
millisecond clock). -/
structure RiskState where
  limits : RiskLimits
  positions : List (String × Position)
  dailyPnL : ℚ
  dailyVolume : ℚ
  lastTradeTime : ℚ
  totalExposure : ℚ
  dailyReset : ℚ
deriving DecidableEq

/-- The fields of ArbitrageOpportunity consumed by the execution layer and
the engine.  market2Id is the empty string when absent, mirroring the
(opp as any).market2Id lookup falling back to the empty string; the
possibly-missing market2Liquidity keeps its absent case explicit because the
liquidity check treats a falsy value as infinite. -/
structure Opportunity where
  type : String
  market1Id : String
  market2Id : String
  market1Price : ℚ
  market1Liquidity : ℚ
  market2Liquidity : Option ℚ
  profitPercent : ℚ
  confidenceScore : ℚ
  spread : ℚ
deriving DecidableEq

/-- One entry of the checks array produced by checkPreExecution.  The reason
strings are display-only output and are not modelled. -/
structure RiskCheck where
  name : String
  passed : Bool
deriving DecidableEq

/-- RiskCheckResult: approved flag plus the list of individual checks. -/
structure RiskCheckResult where
  approved : Bool
  checks : List RiskCheck
deriving DecidableEq

/-- checkPositionLimit: the resulting position in the primary market must
stay within the per-market cap. -/
def checkPositionLimit (st : RiskState) (opp : Opportunity) (orderSizeUsd : ℚ) : RiskCheck :=
  let currentSize := (alistLookup st.positions opp.market1Id).elim 0 (·.size)
  let newSize := currentSize + orderSizeUsd
  { name := "position_limit", passed := decide (newSize ≤ st.limits.maxPositionSizeUsd) }

/-- checkTotalExposure: aggregate exposure must stay within the cap. -/
def checkTotalExposure (st : RiskState) (orderSizeUsd : ℚ) : RiskCheck :=
  let newExposure := st.totalExposure + orderSizeUsd
  { name := "total_exposure", passed := decide (newExposure ≤ st.limits.maxTotalExposureUsd) }

/-- checkDailyLoss: running daily PnL must still be above the loss floor. -/
def checkDailyLoss (st : RiskState) : RiskCheck :=
  { name := "daily_loss", passed := decide (-st.limits.maxDailyLossUsd < st.dailyPnL) }

/-- checkLiquidity: minimum liquidity across the legs must meet the floor.
For non-multi-outcome opportunities the source takes
min(market1Liquidity, market2Liquidity or Infinity), where a missing or zero
market2Liquidity is falsy and becomes Infinity, which the min absorbs. -/
def checkLiquidity (st : RiskState) (opp : Opportunity) : RiskCheck :=
  let minLiquidity :=
    if opp.type = "multi_outcome" then opp.market1Liquidity
    else
      match opp.market2Liquidity with
      | none => opp.market1Liquidity
      | some l => if l = 0 then opp.market1Liquidity else min opp.market1Liquidity l
  { name := "liquidity", passed := decide (st.limits.minLiquidityUsd ≤ minLiquidity) }

/-- checkCooldown: elapsed time since the last trade meets the cooldown. -/
def checkCooldown (st : RiskState) (now : ℚ) : RiskCheck :=
  { name := "cooldown", passed := decide (st.limits.cooldownMs ≤ now - st.lastTradeTime) }

/-- checkMinProfitability: profit after a rough slippage estimate (half the
liquidity-ratio impact, in percent) must still exceed 0.1 percent. -/
def checkMinProfitability (opp : Opportunity) (orderSizeUsd : ℚ) : RiskCheck :=
  let estimatedSlippage := orderSizeUsd / opp.market1Liquidity * 0.5 * 100
  let netProfit := opp.profitPercent - estimatedSlippage
  { name := "profitability", passed := decide (0.1 < netProfit) }

/-- checkDailyReset followed by resetDaily: when the clock has passed the
scheduled reset time, zero the daily counters and schedule the next
midnight (passed in as nextMidnight, the source computes it from Date). -/
def checkDailyResetState (st : RiskState) (now nextMidnight : ℚ) : RiskState :=
  if st.dailyReset ≤ now then
    { st with dailyPnL := 0, dailyVolume := 0, dailyReset := nextMidnight }
  else st

/-- checkPreExecution: run the daily-reset hook, then the six admission
checks; approved exactly when find finds no failing check. -/
def checkPreExecution (st : RiskState) (opp : Opportunity) (orderSizeUsd now nextMidnight : ℚ) :
    RiskCheckResult :=
  let st' := checkDailyResetState st now nextMidnight
  let checks := [
    checkPositionLimit st' opp orderSizeUsd,
    checkTotalExposure st' orderSizeUsd,
    checkDailyLoss st',
    checkLiquidity st' opp,
    checkCooldown st' now,
    checkMinProfitability opp orderSizeUsd]
  let failed := checks.find? (fun c => !c.passed)
  { approved := failed.isNone, checks := checks }

/-- Finding no failing check is the same as every check passing. -/
theorem find_failing_isNone_eq_all (l : List RiskCheck) :
    (l.find? (fun c => !c.passed)).isNone = l.all (·.passed) := by
  induction l with
  | nil => rfl
  | cons c rest ih =>
      by_cases h : c.passed
      · simp [List.find?, List.all, h, ih]
      · simp [List.find?, List.all, h]

/-- Claim C1: checkPreExecution approves a trade if and only if all six
admission checks (position limit, total exposure, daily loss, liquidity,
cooldown, post-slippage profitability) pass; since the right-hand side is a
Boolean conjunction, making any single check fail forces approved = false. -/
theorem checkPreExecution_approved_iff_all_checks
    (st : RiskState) (opp : Opportunity) (orderSizeUsd now nextMidnight : ℚ) :
    (checkPreExecution st opp orderSizeUsd now nextMidnight).approved =
      ((checkPositionLimit (checkDailyResetState st now nextMidnight) opp orderSizeUsd).passed
        && (checkTotalExposure (checkDailyResetState st now nextMidnight) orderSizeUsd).passed
        && (checkDailyLoss (checkDailyResetState st now nextMidnight)).passed
        && (checkLiquidity (checkDailyResetState st now nextMidnight) opp).passed
        && (checkCooldown (checkDailyResetState st now nextMidnight) now).passed
        && (checkMinProfitability opp orderSizeUsd).passed) := by
  show (List.find? _ _).isNone = _
  rw [find_failing_isNone_eq_all]
  simp [List.all, Bool.and_assoc]

/-! ## emergencyStop (src/execution/riskManager.ts, lines 285-290) -/

/-- emergencyStop: zero the total-exposure and daily-loss limits so that no
further trade can be approved; nothing else is touched. -/
def emergencyStop (st : RiskState) : RiskState :=
  { st with limits := { st.limits with maxTotalExposureUsd := 0, maxDailyLossUsd := 0 } }

/-- Claim C8: emergencyStop sets the max-total-exposure and max-daily-loss
limits to zero and changes nothing else, and afterwards every
checkPreExecution call with a positive order size (from any state with the
nonnegative-exposure invariant) is rejected. -/
theorem emergencyStop_frame_and_blocks
    (st : RiskState) (opp : Opportunity) (orderSizeUsd now nextMidnight : ℚ) :
    (0 < orderSizeUsd → 0 ≤ st.totalExposure →
      (checkPreExecution (emergencyStop st) opp orderSizeUsd now nextMidnight).approved = false)
    ∧ (emergencyStop st).limits.maxTotalExposureUsd = 0
    ∧ (emergencyStop st).limits.maxDailyLossUsd = 0
    ∧ (emergencyStop st).limits.maxPositionSizeUsd = st.limits.maxPositionSizeUsd
    ∧ (emergencyStop st).limits.maxSlippagePercent = st.limits.maxSlippagePercent
    ∧ (emergencyStop st).limits.minLiquidityUsd = st.limits.minLiquidityUsd
    ∧ (emergencyStop st).limits.maxGasCostUsd = st.limits.maxGasCostUsd
    ∧ (emergencyStop st).limits.cooldownMs = st.limits.cooldownMs
    ∧ (emergencyStop st).positions = st.positions
    ∧ (emergencyStop st).dailyPnL = st.dailyPnL
    ∧ (emergencyStop st).dailyVolume = st.dailyVolume
    ∧ (emergencyStop st).lastTradeTime = st.lastTradeTime
    ∧ (emergencyStop st).totalExposure = st.totalExposure
    ∧ (emergencyStop st).dailyReset = st.dailyReset := by
  refine ⟨?_, rfl, rfl, rfl, rfl, rfl, rfl, rfl, rfl, rfl, rfl, rfl, rfl, rfl⟩
  intro hpos hexp
  have hfail : (checkTotalExposure
      (checkDailyResetState (emergencyStop st) now nextMidnight) orderSizeUsd).passed = false := by
    have hte : (checkDailyResetState (emergencyStop st) now nextMidnight).totalExposure
        = st.totalExposure := by
      unfold checkDailyResetState emergencyStop
      split <;> rfl
    have hlim :
        RiskLimits.maxTotalExposureUsd
          (checkDailyResetState (emergencyStop st) now nextMidnight).limits = 0 := by
      unfold checkDailyResetState emergencyStop
      split <;> rfl
    unfold checkTotalExposure
    rw [hte, hlim]
    simp only [decide_eq_false_iff_not, not_le]
    linarith
  show (List.find? _ _).isNone = false
  rw [find_failing_isNone_eq_all]
  simp [List.all, hfail]

/-- Witness for C8: in a concrete healthy state the stop blocks a one-dollar
order. -/
def rlimits0 : RiskLimits :=
  { maxPositionSizeUsd := 1000, maxTotalExposureUsd := 5000, maxDailyLossUsd := 500,
    maxSlippagePercent := 1, minLiquidityUsd := 5000, maxGasCostUsd := 5, cooldownMs := 5000 }

/-- Fresh RiskManager state with default-style limits and no activity. -/
def rstate0 : RiskState :=
  { limits := rlimits0, positions := [], dailyPnL := 0, dailyVolume := 0,
    lastTradeTime := 0, totalExposure := 0, dailyReset := 86400000 }

/-- A concrete cross-market opportunity used to instantiate the theorems. -/
def opp0 : Opportunity :=
  { type := "cross_market", market1Id := "m1", market2Id := "m2",
    market1Price := 0.4, market1Liquidity := 10000, market2Liquidity := some 20000,
    profitPercent := 2, confidenceScore := 0.8, spread := 0.02 }

theorem emergencyStop_frame_and_blocks_witness :
    (checkPreExecution (emergencyStop rstate0) opp0 1 10000 86400000).approved = false :=
  (emergencyStop_frame_and_blocks rstate0 opp0 1 10000 86400000).1
    (by norm_num) (le_refl 0)

/-! ## updateAfterExecution (src/execution/riskManager.ts, lines 175-215) -/

inductive Side
  | BUY
  | SELL
deriving DecidableEq

/-- Sum of the absolute sizes of all stored positions, as recomputed at the
end of every updateAfterExecution call. -/
def sumAbsSizes (positions : List (String × Position)) : ℚ :=
  (positions.map (fun p => |p.2.size|)).sum

/-- updateAfterExecution: accumulate daily PnL and volume, stamp the trade
time, adjust or create the position for the market (deleting it when its net
size drops to zero or below), and recompute the total exposure. -/
def updateAfterExecution (st : RiskState) (marketId : String) (side : Side)
    (sizeUsd price pnl now : ℚ) : RiskState :=
  let positions :=
    match alistLookup st.positions marketId with
    | some existing =>
        let newSize := if side = Side.BUY then existing.size + sizeUsd
                       else existing.size - sizeUsd
        let updated := { existing with
          size := newSize,
          currentPrice := price,
          unrealizedPnl := (price - existing.avgEntryPrice) * newSize }
        if newSize ≤ 0 then alistDel st.positions marketId
        else alistSet st.positions marketId updated
    | none =>
        if side = Side.BUY then
          alistSet st.positions marketId
            { marketId := marketId, outcome := 1, size := sizeUsd,
              avgEntryPrice := price, currentPrice := price,
              unrealizedPnl := 0, openedAt := now }
        else st.positions
  { st with
    dailyPnL := st.dailyPnL + pnl,
    dailyVolume := st.dailyVolume + sizeUsd,
    lastTradeTime := now,
    positions := positions,
    totalExposure := sumAbsSizes positions }

theorem mem_alistSet {β : Type} (l : List (String × β)) (k : String) (v : β)
    (p : String × β) (hp : p ∈ alistSet l k v) : p = (k, v) ∨ p ∈ l := by
  induction l with
  | nil =>
      unfold alistSet at hp
      exact Or.inl (List.mem_singleton.mp hp)
  | cons hd tl ih =>
      unfold alistSet at hp
      split at hp
      · rcases List.mem_cons.mp hp with h | h
        · exact Or.inl h
        · exact Or.inr (List.mem_cons_of_mem _ h)
      · rcases List.mem_cons.mp hp with h | h
        · exact Or.inr (h ▸ List.mem_cons_self _ _)
        · rcases ih h with h' | h'
          · exact Or.inl h'
          · exact Or.inr (List.mem_cons_of_mem _ h')

theorem mem_alistDel {β : Type} (l : List (String × β)) (k : String)
    (p : String × β) (hp : p ∈ alistDel l k) : p ∈ l := by
  induction l with
  | nil => exact absurd hp (by simp [alistDel])
  | cons hd tl ih =>
      unfold alistDel at hp
      split at hp
      · exact List.mem_cons_of_mem _ hp
      · rcases List.mem_cons.mp hp with h | h
        · exact h ▸ List.mem_cons_self _ _
        · exact List.mem_cons_of_mem _ (ih h)

/-- Counterexample to claim C9 as stated: an update call with sizeUsd = 0 and
side BUY on a market with no open position stores a position of size 0,
which is not strictly positive and is not deleted. -/
theorem updateAfterExecution_zero_size_counterexample :
    ((updateAfterExecution rstate0 "m" Side.BUY 0 0.5 0 0).positions.all
      (fun p => decide (0 < p.2.size))) = false := by
  decide

/-- Claim C9 (amended: for calls with strictly positive sizeUsd): the
strictly-positive-size invariant of the positions map is preserved, a SELL
on a market with no open position leaves the positions map unchanged, and
after the update totalExposure equals the sum of the absolute stored
sizes. -/
theorem updateAfterExecution_invariants (st : RiskState) (marketId : String)
    (side : Side) (sizeUsd price pnl now : ℚ)
    (hpos : ∀ p ∈ st.positions, 0 < p.2.size) (hsz : 0 < sizeUsd) :
    (∀ p ∈ (updateAfterExecution st marketId side sizeUsd price pnl now).positions,
        0 < p.2.size)
    ∧ (side = Side.SELL → alistLookup st.positions marketId = none →
        (updateAfterExecution st marketId side sizeUsd price pnl now).positions
          = st.positions)
    ∧ (updateAfterExecution st marketId side sizeUsd price pnl now).totalExposure
        = sumAbsSizes
            (updateAfterExecution st marketId side sizeUsd price pnl now).positions := by
  refine ⟨?_, ?_, rfl⟩
  · intro p hp
    unfold updateAfterExecution at hp
    simp only at hp
    rcases hlk : alistLookup st.positions marketId with _ | existing
    · rw [hlk] at hp
      simp only at hp
      rcases hside : side with _ | _
      · rw [hside] at hp
        simp only [reduceIte] at hp
        rcases mem_alistSet _ _ _ _ hp with h | h
        · rw [h]
          exact hsz
        · exact hpos p h
      · rw [hside] at hp
        simp only [reduceCtorEq, reduceIte] at hp
        exact hpos p hp
    · rw [hlk] at hp
      simp only at hp
      by_cases hns :
          (if side = Side.BUY then existing.size + sizeUsd else existing.size - sizeUsd) ≤ 0
      · rw [if_pos hns] at hp
        exact hpos p (mem_alistDel _ _ _ hp)
      · rw [if_neg hns] at hp
        rcases mem_alistSet _ _ _ _ hp with h | h
        · rw [h]
          exact lt_of_not_le hns
        · exact hpos p h
  · intro hside hlk
    unfold updateAfterExecution
    simp only [hlk, hside]
    rfl

/-- Witness for C9 (amended): a SELL with positive size on an untraded market
leaves the concrete empty positions map unchanged. -/
theorem updateAfterExecution_invariants_witness :
    (updateAfterExecution rstate0 "m" Side.SELL 7 0.5 0 0).positions
      = rstate0.positions :=
  (updateAfterExecution_invariants rstate0 "m" Side.SELL 7 0.5 0 0
    (by intro p hp; exact absurd hp (by simp [rstate0])) (by norm_num)).2.1 rfl rfl

/-! ## PaperTradingExecutor sizing and settlement (src/execution,
PaperTradingExecutor in the slippage-model source file) -/

/-- Default leg-failure sampling probability of the CLOB simulation. -/
def LEG_FAILURE_PROBABILITY : ℚ := 0.05

/-- calculateKellyFraction: win probability is the confidence clamped into
[0.5, 0.95], odds are the expected profit fraction over a fixed 2 percent
loss, raw Kelly is halved and the result clamped into [0.01, 0.25].
When expectedProfitPercent = 0 the odds are 0; rational division by zero
yields 0 here while the JS float path yields minus infinity, and both are
clamped to the same 0.01. -/
def calculateKellyFraction (confidenceScore expectedProfitPercent : ℚ) : ℚ :=
  let winProbability := min 0.95 (max 0.5 confidenceScore)
  let loseProbability := 1 - winProbability
  let profitIfWin := expectedProfitPercent / 100
  let lossIfLose : ℚ := 0.02
  let odds := profitIfWin / lossIfLose
  let kelly := (odds * winProbability - loseProbability) / odds
  let fractionalKelly := kelly * 0.5
  min 0.25 (max 0.01 fractionalKelly)

/-- calculatePositionSize: bankroll times the Kelly fraction, capped by the
configured max position size and by a quarter of the bankroll, floored at
five dollars, and zero outright when the bankroll is below ten dollars. -/
def calculatePositionSize (bankroll maxPositionSizeUsd confidenceScore profitPercent : ℚ) : ℚ :=
  let kellyFraction := calculateKellyFraction confidenceScore profitPercent
  let positionSize := bankroll * kellyFraction
  let positionSize := min positionSize maxPositionSizeUsd
  let positionSize := min positionSize (bankroll * 0.25)
  let positionSize := max positionSize 5
  if bankroll < 10 then 0 else positionSize

/-- Claim C5: the Kelly fraction is always clamped into [0.01, 0.25] (hence
in particular whenever the sizing is non-zero), sizing is zero whenever the
bankroll is below ten dollars, and otherwise the dollar size is the
Kelly-sized amount capped by the configured max position size and a quarter
of the bankroll, floored at five dollars. -/
theorem calculateKellyFraction_clamped_and_size
    (bankroll maxPositionSizeUsd confidenceScore profitPercent : ℚ) :
    (0.01 ≤ calculateKellyFraction confidenceScore profitPercent
      ∧ calculateKellyFraction confidenceScore profitPercent ≤ 0.25)
    ∧ (bankroll < 10 →
        calculatePositionSize bankroll maxPositionSizeUsd confidenceScore profitPercent = 0)
    ∧ (10 ≤ bankroll →
        calculatePositionSize bankroll maxPositionSizeUsd confidenceScore profitPercent =
          max (min (min (bankroll * calculateKellyFraction confidenceScore profitPercent)
            maxPositionSizeUsd) (bankroll * 0.25)) 5)
    ∧ (calculatePositionSize bankroll maxPositionSizeUsd confidenceScore profitPercent ≠ 0 →
        0.01 ≤ calculateKellyFraction confidenceScore profitPercent
          ∧ calculateKellyFraction confidenceScore profitPercent ≤ 0.25) := by
  have hclamp : 0.01 ≤ calculateKellyFraction confidenceScore profitPercent
      ∧ calculateKellyFraction confidenceScore profitPercent ≤ 0.25 := by
    unfold calculateKellyFraction
    constructor
    · exact le_min (by norm_num) (le_max_left _ _)
    · exact min_le_left _ _
  refine ⟨hclamp, ?_, ?_, fun _ => hclamp⟩
  · intro h
    unfold calculatePositionSize
    rw [if_pos h]
  · intro h
    unfold calculatePositionSize
    rw [if_neg (not_lt.mpr h)]

/-- Witness for C5: concrete Kelly clamp bounds and the small-bankroll zero,
at confidence 0.9, profit 5 percent. -/
theorem calculateKellyFraction_clamped_and_size_witness :
    calculatePositionSize 5 1000 0.9 5 = 0
      ∧ 0.01 ≤ calculateKellyFraction 0.9 5 ∧ calculateKellyFraction 0.9 5 ≤ 0.25 :=
  ⟨(calculateKellyFraction_clamped_and_size 5 1000 0.9 5).2.1 (by norm_num),
    (calculateKellyFraction_clamped_and_size 5 1000 0.9 5).1⟩

/-- Claim C10: the five-dollar floor is applied after both caps, so for any
bankroll in [10, 20) the position size is exactly five dollars, which
exceeds a quarter of the bankroll, and for any bankroll of at least ten
dollars a configured max position size below five dollars is likewise
overridden by the floor. -/
theorem calculatePositionSize_floor_dominates
    (bankroll maxPositionSizeUsd confidenceScore profitPercent : ℚ) :
    (10 ≤ bankroll → bankroll < 20 →
      calculatePositionSize bankroll maxPositionSizeUsd confidenceScore profitPercent = 5
        ∧ bankroll * 0.25 < 5)
    ∧ (10 ≤ bankroll → maxPositionSizeUsd < 5 →
      calculatePositionSize bankroll maxPositionSizeUsd confidenceScore profitPercent = 5) := by
  constructor
  · intro h10 h20
    have hq : bankroll * 0.25 < 5 := by linarith
    refine ⟨?_, hq⟩
    unfold calculatePositionSize
    rw [if_neg (not_lt.mpr h10)]
    have hle : min (min (bankroll * calculateKellyFraction confidenceScore profitPercent)
        maxPositionSizeUsd) (bankroll * 0.25) < 5 :=
      lt_of_le_of_lt (min_le_right _ _) hq
    exact max_eq_right (le_of_lt hle)
  · intro h10 hmp
    unfold calculatePositionSize
    rw [if_neg (not_lt.mpr h10)]
    have hle : min (min (bankroll * calculateKellyFraction confidenceScore profitPercent)
        maxPositionSizeUsd) (bankroll * 0.25) < 5 :=
      lt_of_le_of_lt (le_trans (min_le_left _ _) (min_le_right _ _)) hmp
    exact max_eq_right (le_of_lt hle)

/-- Witness for C10: with a twelve-dollar bankroll the sizing is the floor. -/
theorem calculatePositionSize_floor_dominates_witness :
    calculatePositionSize 12 1000 0.9 5 = 5 ∧ (12 : ℚ) * 0.25 < 5 :=
  (calculatePositionSize_floor_dominates 12 1000 0.9 5).1 (by norm_num) (by norm_num)

/-- Sampled execution outcome of simulateCLOBExecution: leg failures, fill
rate, and the noise-adjusted total slippage. -/
structure ExecOutcome where
  leg1Failed : Bool
  leg2Failed : Bool
  fillRate : ℚ
  totalSlippageBps : ℚ
deriving DecidableEq

/-- Deterministic financial core of PaperTradingExecutor.execute, applied to
the pre-trade bankroll after the position size has been fixed: deduct the
capital, then settle according to the sampled execution outcome. -/
structure TradeSettlement where
  bankrollAfter : ℚ
  realizedProfit : ℚ
  success : Bool
deriving DecidableEq

/-- settleTrade: leg-1 failure returns the full position size and books a
0.1 percent fee only in realizedProfit; leg-2 failure unwinds at a two
percent loss; otherwise gross profit is scaled by the fill rate and reduced
by slippage cost and one percent fees. -/
def settleTrade (bankroll positionSize profitPercent : ℚ) (r : ExecOutcome) : TradeSettlement :=
  let bankroll1 := bankroll - positionSize
  if r.leg1Failed then
    { bankrollAfter := bankroll1 + positionSize,
      realizedProfit := -positionSize * 0.001,
      success := false }
  else if r.leg2Failed then
    let unwindLoss := positionSize * 0.02
    { bankrollAfter := bankroll1 + (positionSize - unwindLoss),
      realizedProfit := -unwindLoss,
      success := false }
  else
    let slippageCost := r.totalSlippageBps / 10000 * positionSize
    let fees := positionSize * 0.01
    let grossProfit := profitPercent / 100 * positionSize
    let realizedProfit := grossProfit * r.fillRate - slippageCost - fees
    { bankrollAfter := bankroll1 + (positionSize + realizedProfit),
      realizedProfit := realizedProfit,
      success := decide (0 < realizedProfit) }

/-- Counterexample to claim C2 as stated: on a simulated leg-1 failure the
bankroll is restored to exactly its pre-trade value, not to a value slightly
below it; only the recorded realized profit carries the penalty fee. -/
theorem settleTrade_leg1_counterexample :
    (settleTrade 1000 50 5
        { leg1Failed := true, leg2Failed := false, fillRate := 1,
          totalSlippageBps := 60 }).bankrollAfter = 1000
      ∧ ¬ (settleTrade 1000 50 5
          { leg1Failed := true, leg2Failed := false, fillRate := 1,
            totalSlippageBps := 60 }).bankrollAfter < 1000
      ∧ (settleTrade 1000 50 5
          { leg1Failed := true, leg2Failed := false, fillRate := 1,
            totalSlippageBps := 60 }).realizedProfit = -0.05 := by
  refine ⟨by norm_num [settleTrade], ?_, by norm_num [settleTrade]⟩
  norm_num [settleTrade]

/-- Claim C2 (amended: the full committed capital is returned, the penalty
fee appears only in the recorded realized profit): on a leg-1 failure no
position is taken, the bankroll after the trade equals its pre-trade value
exactly, the recorded realized profit is minus 0.1 percent of the position
size (hence slightly negative for a positive position), and the trade is
marked unsuccessful. -/
theorem settleTrade_leg1_failure (bankroll positionSize profitPercent : ℚ)
    (r : ExecOutcome) (h : r.leg1Failed = true) :
    (settleTrade bankroll positionSize profitPercent r).bankrollAfter = bankroll
    ∧ (settleTrade bankroll positionSize profitPercent r).realizedProfit
        = -positionSize * 0.001
    ∧ (settleTrade bankroll positionSize profitPercent r).success = false
    ∧ (0 < positionSize →
        (settleTrade bankroll positionSize profitPercent r).realizedProfit < 0) := by
  unfold settleTrade
  rw [h, if_pos rfl]
  refine ⟨by ring, rfl, rfl, ?_⟩
  intro hp
  nlinarith

/-- Witness for C2 (amended): the scenario numbers, bankroll 1000 and a
50-dollar position. -/
theorem settleTrade_leg1_failure_witness :
    (settleTrade 1000 50 5
        { leg1Failed := true, leg2Failed := false, fillRate := 1,
          totalSlippageBps := 60 }).bankrollAfter = 1000
      ∧ (settleTrade 1000 50 5
          { leg1Failed := true, leg2Failed := false, fillRate := 1,
            totalSlippageBps := 60 }).success = false :=
  ⟨(settleTrade_leg1_failure 1000 50 5 _ rfl).1,
    (settleTrade_leg1_failure 1000 50 5 _ rfl).2.2.1⟩

/-! ## SlippageModel (src/execution/slippageModel.ts, SlippageModel class) -/

/-- Result of SlippageModel.estimate. -/
structure SlippageEstimate where
  estimatedSlippageBps : ℚ
  estimatedExecutionPrice : ℚ
  confidence : ℚ
  liquidityDepth : ℚ
deriving DecidableEq

/-- calculatePriceImpact: extra basis points when buying above 0.9 or
selling below 0.1. -/
def calculatePriceImpact (price : ℚ) (isBuy : Bool) : ℚ :=
  if isBuy then
    if 0.9 < price then (price - 0.9) * 100 else 0
  else
    if price < 0.1 then (0.1 - price) * 100 else 0

/-- estimate: base slippage plus liquidity impact plus price-extremity
impact, with the execution price shifted in the trade direction and clamped
into [0.01, 0.99].  The config constants baseSlippageBps and
liquidityImpactFactor are passed as parameters. -/
def estimate (baseSlippageBps liquidityImpactFactor orderSizeUsd marketLiquidity : ℚ)
    (isBuy : Bool) (currentPrice : ℚ) : SlippageEstimate :=
  let liquidityRatio := orderSizeUsd / marketLiquidity
  let liquidityImpactBps := liquidityRatio * liquidityImpactFactor * 10000
  let priceImpactBps := calculatePriceImpact currentPrice isBuy
  let totalSlippageBps := baseSlippageBps + liquidityImpactBps + priceImpactBps
  let slippageMultiplier := totalSlippageBps / 10000
  let estimatedExecutionPrice :=
    if isBuy then currentPrice * (1 + slippageMultiplier)
    else currentPrice * (1 - slippageMultiplier)
  { estimatedSlippageBps := totalSlippageBps,
    estimatedExecutionPrice := max 0.01 (min 0.99 estimatedExecutionPrice),
    confidence := max 0.3 (1 - liquidityRatio * 2),
    liquidityDepth := marketLiquidity }

/-- addNoise: perturb the basis-point estimate by plus or minus twenty
percent (u is the Math.random draw in [0, 1)), floor it at zero, divide the
stored execution price by one plus the unperturbed multiplier to recover a
base price, and re-shift by the perturbed multiplier. -/
def addNoise (u : ℚ) (e : SlippageEstimate) : SlippageEstimate :=
  let noise := (u - 0.5) * 0.4
  let noisySlippage := e.estimatedSlippageBps * (1 + noise)
  let slippageMultiplier := noisySlippage / 10000
  let originalPrice := e.estimatedExecutionPrice / (1 + e.estimatedSlippageBps / 10000)
  { e with
    estimatedSlippageBps := max 0 noisySlippage,
    estimatedExecutionPrice := max 0.01 (min 0.99 (originalPrice * (1 + slippageMultiplier))) }

/-- Counterexample to claim C6 as stated: for a sell-side estimate (price
0.5, 60 bps of slippage, noise draw 0.75) the noise pass does not return the
current price shifted by the perturbed slippage fraction in the sell
direction; the reconstruction divides by one plus the multiplier as if the
estimate had been buy-side. -/
theorem addNoise_sell_counterexample :
    (addNoise (3 / 4) (estimate 10 0.5 100 10000 false 0.5)).estimatedExecutionPrice
      ≠ max 0.01 (min 0.99 ((0.5 : ℚ) *
          (1 - (estimate 10 0.5 100 10000 false 0.5).estimatedSlippageBps
            * (1 + ((3 / 4 : ℚ) - 0.5) * 0.4) / 10000))) := by
  norm_num [addNoise, estimate, calculatePriceImpact]

/-- Claim C6 (amended: consistent recomputation holds for buy-side estimates
whose execution price was not clamped; sell-side estimates are reconstructed
with the buy-side formula and do not satisfy the claim): the perturbed
basis-point estimate is the original times a factor 1 + (u - 0.5) * 0.4,
which lies in [0.8, 1.2) for u in [0, 1), floored at zero, and for an
unclamped buy estimate the returned price is the current price shifted by
the perturbed slippage fraction and clamped into [0.01, 0.99], exactly as
the original estimate computed it. -/
theorem addNoise_buy_consistent
    (baseSlippageBps liquidityImpactFactor orderSizeUsd marketLiquidity currentPrice u : ℚ)
    (h1 : 0.01 ≤ currentPrice * (1 + (estimate baseSlippageBps liquidityImpactFactor
        orderSizeUsd marketLiquidity true currentPrice).estimatedSlippageBps / 10000))
    (h2 : currentPrice * (1 + (estimate baseSlippageBps liquidityImpactFactor
        orderSizeUsd marketLiquidity true currentPrice).estimatedSlippageBps / 10000) ≤ 0.99)
    (h3 : 1 + (estimate baseSlippageBps liquidityImpactFactor
        orderSizeUsd marketLiquidity true currentPrice).estimatedSlippageBps / 10000 ≠ 0) :
    (addNoise u (estimate baseSlippageBps liquidityImpactFactor
        orderSizeUsd marketLiquidity true currentPrice)).estimatedExecutionPrice
      = max 0.01 (min 0.99 (currentPrice *
          (1 + (estimate baseSlippageBps liquidityImpactFactor
            orderSizeUsd marketLiquidity true currentPrice).estimatedSlippageBps
              * (1 + (u - 0.5) * 0.4) / 10000)))
    ∧ (addNoise u (estimate baseSlippageBps liquidityImpactFactor
        orderSizeUsd marketLiquidity true currentPrice)).estimatedSlippageBps
      = max 0 ((estimate baseSlippageBps liquidityImpactFactor
          orderSizeUsd marketLiquidity true currentPrice).estimatedSlippageBps
            * (1 + (u - 0.5) * 0.4))
    ∧ (0 ≤ u → u < 1 →
        0.8 ≤ 1 + (u - 0.5) * 0.4 ∧ 1 + (u - 0.5) * 0.4 < 1.2) := by
  set e := estimate baseSlippageBps liquidityImpactFactor
      orderSizeUsd marketLiquidity true currentPrice with he
  have hprice : e.estimatedExecutionPrice
      = currentPrice * (1 + e.estimatedSlippageBps / 10000) := by
    have h0 : e.estimatedExecutionPrice
        = max 0.01 (min 0.99 (currentPrice * (1 + e.estimatedSlippageBps / 10000))) := rfl
    rw [h0, min_eq_right h2, max_eq_right h1]
  refine ⟨?_, rfl, ?_⟩
  · show max 0.01 (min 0.99
        (e.estimatedExecutionPrice / (1 + e.estimatedSlippageBps / 10000) *
          (1 + e.estimatedSlippageBps * (1 + (u - 0.5) * 0.4) / 10000))) = _
    rw [hprice, mul_div_assoc, div_self h3, mul_one]
  · intro h0 h1'
    constructor <;> nlinarith

/-- Witness for C6 (amended): concrete buy estimate at price 0.5 with 60 bps
of slippage and noise draw 0.75. -/
theorem addNoise_buy_consistent_witness :
    (addNoise (3 / 4) (estimate 10 0.5 100 10000 true 0.5)).estimatedExecutionPrice
      = max 0.01 (min 0.99 ((0.5 : ℚ) *
          (1 + (estimate 10 0.5 100 10000 true 0.5).estimatedSlippageBps
            * (1 + ((3 / 4 : ℚ) - 0.5) * 0.4) / 10000)))
    ∧ (0.8 ≤ 1 + ((3 / 4 : ℚ) - 0.5) * 0.4 ∧ 1 + ((3 / 4 : ℚ) - 0.5) * 0.4 < 1.2) :=
  ⟨(addNoise_buy_consistent 10 0.5 100 10000 0.5 (3 / 4)
      (by norm_num [estimate, calculatePriceImpact])
      (by norm_num [estimate, calculatePriceImpact])
      (by norm_num [estimate, calculatePriceImpact])).1,
    (addNoise_buy_consistent 10 0.5 100 10000 0.5 (3 / 4)
      (by norm_num [estimate, calculatePriceImpact])
      (by norm_num [estimate, calculatePriceImpact])
      (by norm_num [estimate, calculatePriceImpact])).2.2 (by norm_num) (by norm_num)⟩

/-! ## ArbitrageEngine dedupe and tracking (crossMarketDetector source file,
ArbitrageEngine class) -/

/-- getOpportunityKey: canonical key, primary market id for multi-outcome
(which includes NegRisk, whose opportunities carry type multi_outcome),
type plus both market ids otherwise. -/
def getOpportunityKey (o : Opportunity) : String :=
  if o.type = "multi_outcome" then "mo_" ++ o.market1Id
  else o.type ++ "_" ++ o.market1Id ++ "_" ++ o.market2Id

/-- Insertion step of sorting by profitPercent descending, the comparator
(a, b) => b.profitPercent - a.profitPercent of the source sort. -/
def insertByProfit (o : Opportunity) : List Opportunity → List Opportunity
  | [] => [o]
  | x :: xs =>
      if x.profitPercent < o.profitPercent then o :: x :: xs
      else x :: insertByProfit o xs

/-- Sort by profitPercent descending. -/
def sortByProfitDesc : List Opportunity → List Opportunity
  | [] => []
  | o :: xs => insertByProfit o (sortByProfitDesc xs)

/-- Dedupe loop of filterAndDedupe: keep the first instance of each key in
the profit-sorted order, remembering seen keys. -/
def dedupeGo : List String → List Opportunity → List Opportunity
  | _, [] => []
  | seen, o :: rest =>
      if getOpportunityKey o ∈ seen then dedupeGo seen rest
      else o :: dedupeGo (getOpportunityKey o :: seen) rest

/-- filterAndDedupe: sort by profit descending, then keep the first (hence
highest-profit) instance per canonical key. -/
def filterAndDedupe (opps : List Opportunity) : List Opportunity :=
  dedupeGo [] (sortByProfitDesc opps)

/-- Tracked entry of the engine, as stored in trackedOpportunities. -/
structure TrackedOpportunity where
  opportunity : Opportunity
  firstSeenAt : ℚ
  lastSeenAt : ℚ
  seenCount : ℕ
  priceHistory : List (ℚ × ℚ)
  executed : Bool
deriving DecidableEq

/-- Body of the updateTracking loop for one opportunity: refresh the entry
under its key (bump seenCount, replace the stored opportunity, append to the
size-capped spread history) or insert a fresh entry with seenCount 1. -/
def trackOne (tracked : List (String × TrackedOpportunity)) (now : ℚ) (opp : Opportunity) :
    List (String × TrackedOpportunity) :=
  let key := getOpportunityKey opp
  match alistLookup tracked key with
  | some existing =>
      let ph := existing.priceHistory ++ [(now, opp.spread)]
      let ph := if 10 < ph.length then ph.drop 1 else ph
      alistSet tracked key
        { existing with
          lastSeenAt := now
          seenCount := existing.seenCount + 1
          opportunity := opp
          priceHistory := ph }
  | none =>
      alistSet tracked key
        { opportunity := opp, firstSeenAt := now, lastSeenAt := now,
          seenCount := 1, priceHistory := [(now, opp.spread)], executed := false }

/-- updateTracking over the whole opportunity list. -/
def updateTracking (tracked : List (String × TrackedOpportunity)) (now : ℚ)
    (opps : List Opportunity) : List (String × TrackedOpportunity) :=
  opps.foldl (fun t o => trackOne t now o) tracked

/-- getNewOpportunities: an opportunity is new when its key is untracked,
when the tracked entry has seenCount 1, or when the profit percentage moved
by more than 0.5 points against the tracked entry. -/
def getNewOpportunities (tracked : List (String × TrackedOpportunity))
    (opps : List Opportunity) : List Opportunity :=
  opps.filter (fun opp =>
    match alistLookup tracked (getOpportunityKey opp) with
    | none => true
    | some t =>
        t.seenCount == 1
          || decide (0.5 < |opp.profitPercent - t.opportunity.profitPercent|))

/-- One detection cycle as the runner composes it: detect runs
updateTracking before returning, and the caller then diffs the result list
against the already-updated tracked map. -/
def detectCycle (tracked : List (String × TrackedOpportunity)) (now : ℚ)
    (opps : List Opportunity) :
    List (String × TrackedOpportunity) × List Opportunity :=
  let tracked' := updateTracking tracked now opps
  (tracked', getNewOpportunities tracked' opps)

/-- The same opportunity with a profit percentage moved by a full point. -/
def opp0shift : Opportunity := { opp0 with profitPercent := 3 }

/-- Claim C3 evidence (code bug): because detect calls updateTracking before
the caller can diff, the tracked entry is already bumped and overwritten
when getNewOpportunities runs.  An opportunity seen exactly once before the
cycle is NOT reported as new on its second sighting (first conjunct), and a
re-detection whose profit moved by a full point is NOT reported either
(second conjunct), although diffing against the pre-cycle map, as the
in-code comments and the spec describe, would report both (last two
conjuncts). -/
theorem detectCycle_second_sighting_not_reported :
    (detectCycle (detectCycle [] 0 [opp0]).1 1 [opp0]).2 = []
    ∧ (detectCycle (detectCycle [] 0 [opp0]).1 1 [opp0shift]).2 = []
    ∧ getNewOpportunities (detectCycle [] 0 [opp0]).1 [opp0] = [opp0]
    ∧ getNewOpportunities (detectCycle [] 0 [opp0]).1 [opp0shift] = [opp0shift] := by
  refine ⟨?_, ?_, ?_, ?_⟩ <;>
    · simp only [detectCycle, updateTracking, trackOne, getNewOpportunities,
        getOpportunityKey, alistLookup, alistSet, opp0, opp0shift, List.foldl,
        List.filter]
      norm_num
      try rfl

/-- Descending order by profitPercent. -/
def ProfitSorted (l : List Opportunity) : Prop :=
  l.Pairwise (fun a b => b.profitPercent ≤ a.profitPercent)

theorem mem_insertByProfit (o p : Opportunity) (l : List Opportunity) :
    p ∈ insertByProfit o l ↔ p = o ∨ p ∈ l := by
  induction l with
  | nil => simp [insertByProfit]
  | cons x xs ih =>
      unfold insertByProfit
      split
      · simp [List.mem_cons]
      · simp only [List.mem_cons, ih]
        tauto

theorem insertByProfit_sorted (o : Opportunity) (l : List Opportunity)
    (h : ProfitSorted l) : ProfitSorted (insertByProfit o l) := by
  induction l with
  | nil =>
      unfold insertByProfit ProfitSorted
      simp
  | cons x xs ih =>
      rcases List.pairwise_cons.mp h with ⟨hx, hxs⟩
      unfold insertByProfit
      split
      · rename_i hlt
        refine List.pairwise_cons.mpr ⟨?_, h⟩
        intro y hy
        rcases List.mem_cons.mp hy with rfl | hy
        · exact le_of_lt hlt
        · exact le_trans (hx y hy) (le_of_lt hlt)
      · rename_i hnlt
        refine List.pairwise_cons.mpr ⟨?_, ih hxs⟩
        intro y hy
        rcases (mem_insertByProfit o y xs).mp hy with rfl | hy
        · exact not_lt.mp hnlt
        · exact hx y hy

theorem sortByProfitDesc_sorted (l : List Opportunity) :
    ProfitSorted (sortByProfitDesc l) := by
  induction l with
  | nil =>
      unfold sortByProfitDesc ProfitSorted
      simp
  | cons x xs ih => exact insertByProfit_sorted x _ ih

theorem mem_sortByProfitDesc (p : Opportunity) (l : List Opportunity) :
    p ∈ sortByProfitDesc l ↔ p ∈ l := by
  induction l with
  | nil => simp [sortByProfitDesc]
  | cons x xs ih =>
      unfold sortByProfitDesc
      rw [mem_insertByProfit, ih]
      simp [List.mem_cons]

theorem mem_dedupeGo_subset (l : List Opportunity) :
    ∀ seen o, o ∈ dedupeGo seen l → o ∈ l := by
  induction l with
  | nil =>
      intro seen o h
      exact absurd h (by simp [dedupeGo])
  | cons x xs ih =>
      intro seen o h
      unfold dedupeGo at h
      split at h
      · exact List.mem_cons_of_mem _ (ih _ _ h)
      · rcases List.mem_cons.mp h with rfl | h
        · exact List.mem_cons_self _ _
        · exact List.mem_cons_of_mem _ (ih _ _ h)

theorem key_notin_seen_of_mem_dedupeGo (l : List Opportunity) :
    ∀ seen o, o ∈ dedupeGo seen l → getOpportunityKey o ∉ seen := by
  induction l with
  | nil =>
      intro seen o h
      exact absurd h (by simp [dedupeGo])
  | cons x xs ih =>
      intro seen o h
      unfold dedupeGo at h
      split at h
      · exact ih _ _ h
      · rename_i hx
        rcases List.mem_cons.mp h with rfl | h
        · exact hx
        · intro hc
          exact ih _ _ h (List.mem_cons_of_mem _ hc)

theorem dedupeGo_keys_nodup (l : List Opportunity) :
    ∀ seen, ((dedupeGo seen l).map getOpportunityKey).Nodup := by
  induction l with
  | nil =>
      intro seen
      simp [dedupeGo]
  | cons x xs ih =>
      intro seen
      unfold dedupeGo
      split
      · exact ih _
      · simp only [List.map_cons]
        refine List.nodup_cons.mpr ⟨?_, ih _⟩
        intro hc
        rcases List.mem_map.mp hc with ⟨o, ho, hk⟩
        have hn := key_notin_seen_of_mem_dedupeGo xs _ o ho
        rw [hk] at hn
        exact hn (List.mem_cons_self _ _)

theorem dedupeGo_max_profit (l : List Opportunity) :
    ProfitSorted l → ∀ seen o, o ∈ dedupeGo seen l →
      ∀ o', o' ∈ l → getOpportunityKey o' = getOpportunityKey o →
        o'.profitPercent ≤ o.profitPercent := by
  induction l with
  | nil =>
      intro _ seen o ho
      exact absurd ho (by simp [dedupeGo])
  | cons x xs ih =>
      intro h seen o ho o' ho' hk
      rcases List.pairwise_cons.mp h with ⟨hx, hxs⟩
      unfold dedupeGo at ho
      split at ho
      · rename_i hmem
        rcases List.mem_cons.mp ho' with rfl | ho'
        · have hn := key_notin_seen_of_mem_dedupeGo xs _ o ho
          rw [← hk] at hn
          exact absurd hmem hn
        · exact ih hxs seen o ho o' ho' hk
      · rcases List.mem_cons.mp ho with rfl | ho2
        · rcases List.mem_cons.mp ho' with rfl | ho'
          · exact le_refl _
          · exact hx o' ho'
        · rcases List.mem_cons.mp ho' with rfl | ho'
          · have hn := key_notin_seen_of_mem_dedupeGo xs _ o ho2
            rw [← hk] at hn
            exact absurd (List.mem_cons_self _ _) hn
          · exact ih hxs _ o ho2 o' ho' hk

theorem dedupeGo_covers (l : List Opportunity) :
    ∀ seen o', o' ∈ l → getOpportunityKey o' ∉ seen →
      ∃ o, o ∈ dedupeGo seen l ∧ getOpportunityKey o = getOpportunityKey o' := by
  induction l with
  | nil =>
      intro seen o' h
      exact absurd h (List.not_mem_nil o')
  | cons x xs ih =>
      intro seen o' ho' hns
      unfold dedupeGo
      by_cases hx : getOpportunityKey x ∈ seen
      · rw [if_pos hx]
        rcases List.mem_cons.mp ho' with rfl | ho'
        · exact absurd hx hns
        · exact ih seen o' ho' hns
      · rw [if_neg hx]
        rcases List.mem_cons.mp ho' with rfl | ho'
        · exact ⟨o', List.mem_cons_self _ _, rfl⟩
        · by_cases hkey : getOpportunityKey o' = getOpportunityKey x
          · exact ⟨x, List.mem_cons_self _ _, hkey.symm⟩
          · have hns' : getOpportunityKey o' ∉ getOpportunityKey x :: seen := by
              intro hc
              rcases List.mem_cons.mp hc with h0 | h0
              · exact hkey h0
              · exact hns h0
            rcases ih _ o' ho' hns' with ⟨o, ho, hk⟩
            exact ⟨o, List.mem_cons_of_mem _ ho, hk⟩

theorem alistLookup_eq_some_mem_keys {β : Type} (l : List (String × β)) (k : String)
    (v : β) (h : alistLookup l k = some v) : k ∈ l.map Prod.fst := by
  induction l with
  | nil => exact absurd h (by simp [alistLookup])
  | cons hd tl ih =>
      obtain ⟨k', v'⟩ := hd
      unfold alistLookup at h
      split at h
      · rename_i heq
        simp [heq]
      · simp only [List.map_cons, List.mem_cons]
        exact Or.inr (ih h)

theorem mem_keys_alistSet {β : Type} (l : List (String × β)) (k : String) (v : β)
    (k'' : String) (h : k'' ∈ (alistSet l k v).map Prod.fst) :
    k'' ∈ l.map Prod.fst ∨ k'' = k := by
  rcases List.mem_map.mp h with ⟨p, hp, hpk⟩
  rcases mem_alistSet l k v p hp with rfl | hp'
  · exact Or.inr hpk.symm
  · exact Or.inl (hpk ▸ List.mem_map_of_mem Prod.fst hp')

theorem keys_nodup_alistSet {β : Type} (l : List (String × β)) (k : String) (v : β)
    (h : (l.map Prod.fst).Nodup) : ((alistSet l k v).map Prod.fst).Nodup := by
  induction l with
  | nil => simp [alistSet]
  | cons hd tl ih =>
      obtain ⟨k', v'⟩ := hd
      simp only [List.map_cons, List.nodup_cons] at h
      unfold alistSet
      split
      · rename_i heq
        simp only [List.map_cons, List.nodup_cons]
        exact ⟨heq ▸ h.1, h.2⟩
      · rename_i hne
        simp only [List.map_cons, List.nodup_cons]
        refine ⟨?_, ih h.2⟩
        intro hc
        rcases mem_keys_alistSet tl k v k' hc with hmem | heq2
        · exact h.1 hmem
        · exact hne heq2

theorem alistSet_length_of_mem {β : Type} (l : List (String × β)) (k : String) (v : β)
    (h : k ∈ l.map Prod.fst) : (alistSet l k v).length = l.length := by
  induction l with
  | nil => exact absurd h (by simp)
  | cons hd tl ih =>
      obtain ⟨k', v'⟩ := hd
      unfold alistSet
      by_cases heq : k' = k
      · rw [if_pos heq]
        simp
      · rw [if_neg heq]
        simp only [List.length_cons]
        rw [List.map_cons] at h
        have h' : k ∈ tl.map Prod.fst := by
          rcases List.mem_cons.mp h with h0 | h0
          · exact absurd h0.symm heq
          · exact h0
        rw [ih h']

theorem trackOne_keys_nodup (tracked : List (String × TrackedOpportunity)) (now : ℚ)
    (opp : Opportunity) (h : (tracked.map Prod.fst).Nodup) :
    ((trackOne tracked now opp).map Prod.fst).Nodup := by
  cases heq : alistLookup tracked (getOpportunityKey opp) with
  | none =>
      simp only [trackOne, heq]
      exact keys_nodup_alistSet _ _ _ h
  | some e =>
      simp only [trackOne, heq]
      exact keys_nodup_alistSet _ _ _ h

theorem updateTracking_keys_nodup (opps : List Opportunity) :
    ∀ tracked now, (tracked.map Prod.fst).Nodup →
      ((updateTracking tracked now opps).map Prod.fst).Nodup := by
  induction opps with
  | nil =>
      intro tracked now h
      exact h
  | cons o os ih =>
      intro tracked now h
      exact ih (trackOne tracked now o) now (trackOne_keys_nodup tracked now o h)

theorem trackOne_length_of_tracked (tracked : List (String × TrackedOpportunity))
    (now : ℚ) (opp : Opportunity)
    (h : (alistLookup tracked (getOpportunityKey opp)).isSome = true) :
    (trackOne tracked now opp).length = tracked.length := by
  cases heq : alistLookup tracked (getOpportunityKey opp) with
  | none =>
      rw [heq] at h
      exact absurd h (by simp)
  | some e =>
      simp only [trackOne, heq]
      exact alistSet_length_of_mem _ _ _ (alistLookup_eq_some_mem_keys _ _ _ heq)

/-- Claim C4: filterAndDedupe leaves at most one (and, for every input key,
exactly one) opportunity per canonical key, keeping a highest-profit
instance; and tracking is stable under re-detection: updateTracking
preserves key uniqueness of the tracked map, and refreshing an already
tracked key never grows the map. -/
theorem filterAndDedupe_unique_best_and_tracking_stable
    (opps : List Opportunity) (tracked : List (String × TrackedOpportunity))
    (now : ℚ) (opp : Opportunity) :
    ((filterAndDedupe opps).map getOpportunityKey).Nodup
    ∧ (∀ o ∈ filterAndDedupe opps, o ∈ opps
        ∧ ∀ o' ∈ opps, getOpportunityKey o' = getOpportunityKey o →
            o'.profitPercent ≤ o.profitPercent)
    ∧ (∀ o' ∈ opps,
        ∃ o ∈ filterAndDedupe opps, getOpportunityKey o = getOpportunityKey o')
    ∧ ((tracked.map Prod.fst).Nodup →
        ((updateTracking tracked now opps).map Prod.fst).Nodup)
    ∧ ((alistLookup tracked (getOpportunityKey opp)).isSome = true →
        (trackOne tracked now opp).length = tracked.length) := by
  refine ⟨dedupeGo_keys_nodup _ _, ?_, ?_,
    fun h => updateTracking_keys_nodup opps tracked now h,
    fun h => trackOne_length_of_tracked tracked now opp h⟩
  · intro o ho
    refine ⟨(mem_sortByProfitDesc o opps).mp (mem_dedupeGo_subset _ _ _ ho), ?_⟩
    intro o' ho' hk
    exact dedupeGo_max_profit _ (sortByProfitDesc_sorted opps) _ o ho o'
      ((mem_sortByProfitDesc o' opps).mpr ho') hk
  · intro o' ho'
    rcases dedupeGo_covers (sortByProfitDesc opps) [] o'
        ((mem_sortByProfitDesc o' opps).mpr ho') (List.not_mem_nil _) with ⟨o, ho, hk⟩
    exact ⟨o, ho, hk⟩

/-- Witness for C4: deduped keys of a concrete two-element detection are
distinct, and refreshing the concrete tracked entry keeps the map size. -/
theorem filterAndDedupe_unique_best_and_tracking_stable_witness :
    ((filterAndDedupe [opp0, opp0shift]).map getOpportunityKey).Nodup
    ∧ (trackOne (detectCycle [] 0 [opp0]).1 1 opp0).length
        = (detectCycle [] 0 [opp0]).1.length :=
  ⟨(filterAndDedupe_unique_best_and_tracking_stable [opp0, opp0shift] [] 0 opp0).1,
    (filterAndDedupe_unique_best_and_tracking_stable [opp0, opp0shift]
      (detectCycle [] 0 [opp0]).1 1 opp0).2.2.2.2 rfl⟩

/-! ## QuestionSimilarityMatcher (crossMarketDetector source file,
QuestionSimilarityMatcher class)

The regex-driven extraction helpers (entityExtractor.extract,
normalizeQuestion, extractSubject, detectInverseRelationship) are pure
functions of the question strings.  Their outputs are taken as the inputs
of the comparison: a MarketFeatures record carries the extracted entity
arrays, the normalized word list and the extracted subject of one market,
and the inverse-relationship flag is a parameter.  The decision logic of
compareMarkets is embedded from the source over these features. -/

/-- Loop of distinctList: keep the first occurrence of each element,
modelling the iteration order and size of a JS Set built from an array. -/
def distinctGo : List String → List String → List String
  | _, [] => []
  | seen, x :: xs =>
      if x ∈ seen then distinctGo seen xs else x :: distinctGo (x :: seen) xs

/-- Elements of a list with duplicates removed (JS Set of an array). -/
def distinctList (l : List String) : List String := distinctGo [] l

/-- jaccardSimilarity of the source: 0 when both sets are empty, otherwise
intersection size over union size. -/
def jaccardSimilarity (l1 l2 : List String) : ℚ :=
  let s1 := distinctList l1
  let s2 := distinctList l2
  if s1.length = 0 ∧ s2.length = 0 then 0
  else ((s1.filter (fun x => x ∈ s2)).length : ℚ) / ((distinctList (s1 ++ s2)).length : ℚ)

/-- Split a string on runs of whitespace (the split on a whitespace regex
applied to a subject), character by character. -/
def splitWsGo : List Char → List Char → List String
  | acc, [] => if acc.isEmpty then [] else [String.mk acc.reverse]
  | acc, c :: cs =>
      if c = ' ' then
        if acc.isEmpty then splitWsGo [] cs
        else String.mk acc.reverse :: splitWsGo [] cs
      else splitWsGo (c :: acc) cs

/-- Words of a subject string. -/
def splitWhitespace (s : String) : List String := splitWsGo [] s.data

/-- Significant words of a subject: the word split filtered to words longer
than two characters, as fed into the subject-overlap sets. -/
def subjectWords (s : String) : List String :=
  (splitWhitespace s).filter (fun w => 2 < w.length)

/-- The subject rejection rule of compareMarkets: both subjects present,
different, and with significant-word overlap below a half. -/
def subjectReject (subject1 subject2 : Option String) : Bool :=
  match subject1, subject2 with
  | some s1, some s2 =>
      if s1 ≠ s2 then
        decide (jaccardSimilarity (subjectWords s1) (subjectWords s2) < 0.5)
      else false
  | _, _ => false

/-- Extraction outputs for one market. -/
structure MarketFeatures where
  names : List String
  dates : List String
  numbers : List String
  keywords : List String
  words : List String
  subject : Option String
deriving DecidableEq

/-- MarketMatch result fields relevant to the decision (the question echo
fields are omitted). -/
structure MarketMatch where
  similarityScore : ℚ
  matchType : String
  sharedEntities : List String
deriving DecidableEq

/-- compareMarkets after the subject rule: entity overlaps, the weighted
similarity score with its two thresholds, and the shared-name requirement. -/
def compareMarketsCore (m1 m2 : MarketFeatures) (isInverse : Bool) : Option MarketMatch :=
  let nameOverlap := jaccardSimilarity m1.names m2.names
  let dateOverlap := jaccardSimilarity m1.dates m2.dates
  let numberOverlap := jaccardSimilarity m1.numbers m2.numbers
  let keywordOverlap := jaccardSimilarity m1.keywords m2.keywords
  let wordOverlap := jaccardSimilarity m1.words m2.words
  if nameOverlap < 0.3 then none
  else
    let similarityScore := nameOverlap * 0.45 + dateOverlap * 0.15
      + numberOverlap * 0.1 + keywordOverlap * 0.1 + wordOverlap * 0.2
    if similarityScore < 0.5 then none
    else
      let sharedNames := m1.names.filter (fun n => m2.names.contains n)
      let sharedDates := m1.dates.filter (fun d => m2.dates.contains d)
      if sharedNames.length = 0 then none
      else
        some { similarityScore := similarityScore,
               matchType := if isInverse then "inverse" else "exact",
               sharedEntities := sharedNames ++ sharedDates }

/-- compareMarkets: the subject rule first, then the core comparison. -/
def compareMarkets (m1 m2 : MarketFeatures) (isInverse : Bool) : Option MarketMatch :=
  if subjectReject m1.subject m2.subject then none
  else compareMarketsCore m1 m2 isInverse

/-- Reduction of the subject rule on two present subjects. -/
theorem subjectReject_some_some (s1 s2 : String) :
    subjectReject (some s1) (some s2) =
      if s1 ≠ s2 then
        decide (jaccardSimilarity (subjectWords s1) (subjectWords s2) < 0.5)
      else false := rfl

/-- Jaccard similarity of two equal singleton sets is 1. -/
theorem jaccard_single_same (a : String) : jaccardSimilarity [a] [a] = 1 := by
  simp [jaccardSimilarity, distinctList, distinctGo]

/-- Jaccard similarity of two distinct singleton sets is 0. -/
theorem jaccard_single_ne (a b : String) (h : a ≠ b) :
    jaccardSimilarity [a] [b] = 0 := by
  simp [jaccardSimilarity, distinctList, distinctGo, h, Ne.symm h]

/-- Jaccard similarity of two empty sets is 0 by convention. -/
theorem jaccard_nil_nil : jaccardSimilarity [] [] = 0 := by
  simp [jaccardSimilarity, distinctList, distinctGo]

/-- Features of a market whose subject consists only of short words. -/
def featShort1 : MarketFeatures :=
  { names := ["alpha"], dates := [], numbers := [], keywords := ["win"],
    words := ["will"], subject := some "xy" }

/-- Second market with the same extraction outputs. -/
def featShort2 : MarketFeatures :=
  { names := ["alpha"], dates := [], numbers := [], keywords := ["win"],
    words := ["will"], subject := some "xy" }

/-- Counterexample to claim C7 as stated: both markets yield the subject xy,
whose significant-word overlap is 0 (below 50 percent, both word sets being
empty after the length filter), yet the pair is accepted, because the
subject rule is skipped for identical subjects. -/
theorem compareMarkets_subject_rule_counterexample :
    featShort1.subject = some "xy" ∧ featShort2.subject = some "xy"
    ∧ jaccardSimilarity (subjectWords "xy") (subjectWords "xy") < 0.5
    ∧ compareMarkets featShort1 featShort2 false ≠ none := by
  have hsw : subjectWords "xy" = [] := rfl
  refine ⟨rfl, rfl, ?_, ?_⟩
  · rw [hsw, jaccard_nil_nil]
    norm_num
  · have hrej : subjectReject featShort1.subject featShort2.subject = false := by
      show subjectReject (some "xy") (some "xy") = false
      rw [subjectReject_some_some, if_neg (by simp)]
    unfold compareMarkets
    rw [hrej, if_neg (by simp)]
    unfold compareMarketsCore
    simp only [featShort1, featShort2]
    rw [jaccard_single_same, jaccard_nil_nil, jaccard_single_same "win",
      jaccard_single_same "will"]
    rw [if_neg (by norm_num), if_neg (by norm_num), if_neg (by simp [List.filter])]
    simp

/-- Claim C7 (amended: the outright subject-overlap rejection applies when
the two extracted subjects are distinct): a pair with both subjects
extracted, distinct, and significant-word overlap below 50 percent is
rejected regardless of all other similarity components; a pair with
name-entity Jaccard overlap below 30 percent is rejected; and a pair with
identical subjects is never rejected by the subject rule (its comparison
equals the pipeline without that rule). -/
theorem compareMarkets_rejection_rules (m1 m2 : MarketFeatures) (isInverse : Bool) :
    (∀ s1 s2, m1.subject = some s1 → m2.subject = some s2 → s1 ≠ s2 →
      jaccardSimilarity (subjectWords s1) (subjectWords s2) < 0.5 →
      compareMarkets m1 m2 isInverse = none)
    ∧ (jaccardSimilarity m1.names m2.names < 0.3 →
      compareMarkets m1 m2 isInverse = none)
    ∧ (∀ s, m1.subject = some s → m2.subject = some s →
      compareMarkets m1 m2 isInverse = compareMarketsCore m1 m2 isInverse) := by
  refine ⟨?_, ?_, ?_⟩
  · intro s1 s2 h1 h2 hne hov
    unfold compareMarkets
    rw [h1, h2, subjectReject_some_some, if_pos hne, if_pos (by simpa using hov)]
  · intro hname
    unfold compareMarkets
    by_cases hrej : subjectReject m1.subject m2.subject
    · rw [if_pos hrej]
    · rw [if_neg hrej]
      unfold compareMarketsCore
      rw [if_pos hname]
  · intro s h1 h2
    unfold compareMarkets
    rw [h1, h2, subjectReject_some_some, if_neg (by simp)]

/-- Features of the scenario pair with distinct subjects. -/
def featLakers : MarketFeatures :=
  { names := ["lakers"], dates := [], numbers := [], keywords := ["win"],
    words := ["will", "lakers", "win"], subject := some "lakers" }

/-- Second scenario market with subject celtics. -/
def featCeltics : MarketFeatures :=
  { names := ["celtics"], dates := [], numbers := [], keywords := ["win"],
    words := ["will", "celtics", "win"], subject := some "celtics" }

/-- Witness for C7 (amended): the lakers-versus-celtics pair is rejected by
the subject rule. -/
theorem compareMarkets_rejection_rules_witness :
    compareMarkets featLakers featCeltics false = none := by
  have hov : jaccardSimilarity (subjectWords "lakers") (subjectWords "celtics") < 0.5 := by
    have h1 : subjectWords "lakers" = ["lakers"] := rfl
    have h2 : subjectWords "celtics" = ["celtics"] := rfl
    rw [h1, h2, jaccard_single_ne _ _ (by decide)]
    norm_num
  exact (compareMarkets_rejection_rules featLakers featCeltics false).1
    "lakers" "celtics" rfl rfl (by decide) hov

end ForwardTesting
